import Mathlib

/-!
Verification of the standoff2conll annotation-resolution engine.

This file is a shallow embedding of the Python sources:
  - `common.py`     : tokenization (`sentence_to_tokens`, `TOKENIZATION_REGEXS`)
  - `standoff.py`   : `Textbound`, parsing, validation, overlap elimination,
                      retagging (`_retag_sentence`)

Python strings are modelled as Lean `String`s, with all of the string
operations the code uses (splitting, lexicographic comparison, slicing,
`int()` parsing) re-implemented as structurally recursive functions over
`String.data : List Char`, mirroring CPython semantics (code-point
lexicographic order, negative-index slicing with clamping, `split` keeping
empty fields).  Python `int` offsets are modelled as `Int`.  Fallible code
(`raise FormatError` / `raise ValueError`) is modelled with `Except` /
`Option`.  Mutation of objects is modelled by returning updated values;
object identity (Python `is`, and `dict` keys hashed by identity) is
modelled by pairing each list element with its position.
-/

namespace S2C

instance exceptDecEq {ε α : Type} [DecidableEq ε] [DecidableEq α] :
    DecidableEq (Except ε α) := fun x y =>
  match x, y with
  | .ok a, .ok b =>
    if h : a = b then .isTrue (by rw [h])
    else .isFalse (fun hc => h (Except.ok.inj hc))
  | .error a, .error b =>
    if h : a = b then .isTrue (by rw [h])
    else .isFalse (fun hc => h (Except.error.inj hc))
  | .ok _, .error _ => .isFalse (fun hc => Except.noConfusion hc)
  | .error _, .ok _ => .isFalse (fun hc => Except.noConfusion hc)

/-- Python `s.split(sep)` for a one-character separator, on char lists:
splits on every occurrence and keeps empty fields (`''.split(t)` is
`['']`). -/
def splitCh (sep : Char) : List Char → List (List Char)
  | [] => [[]]
  | c :: rest =>
    let r := splitCh sep rest
    if c = sep then [] :: r
    else
      match r with
      | [] => [[c]]
      | t :: ts => (c :: t) :: ts

/-- Python `s.split(sep, 1)` (maxsplit 1): `none` when the separator does
not occur (so unpacking into two variables raises `ValueError`), otherwise
the parts before and after the first occurrence. -/
def splitOnceCh (sep : Char) : List Char → Option (List Char × List Char)
  | [] => none
  | c :: rest =>
    if c = sep then some ([], rest)
    else (splitOnceCh sep rest).map (fun p => (c :: p.1, p.2))

/-- Python `<` on strings: lexicographic comparison by code point. -/
def strLtB : List Char → List Char → Bool
  | [], [] => false
  | [], _ :: _ => true
  | _ :: _, [] => false
  | c :: cs, d :: ds =>
    if c.toNat < d.toNat then true
    else if d.toNat < c.toNat then false
    else strLtB cs ds

/-- Digit-accumulator for `int()` parsing. -/
def digitsVal : List Char → Nat → Option Nat
  | [], acc => some acc
  | c :: cs, acc =>
    if c.isDigit then digitsVal cs (acc * 10 + (c.toNat - 48)) else none

/-- Model of Python `int(s)` on a decimal string: optional sign followed by
one or more digits; `none` models the `ValueError` on anything else.  (The
tolerance of `int()` for surrounding whitespace and underscore separators is
not modelled; no claim depends on it.) -/
def pyInt? (s : List Char) : Option Int :=
  match s with
  | '-' :: rest =>
    if rest = [] then none else (digitsVal rest 0).map (fun n => -(n : Int))
  | '+' :: rest =>
    if rest = [] then none else (digitsVal rest 0).map (fun n => (n : Int))
  | l => if l = [] then none else (digitsVal l 0).map (fun n => (n : Int))

/-- Clamp a Python index (possibly negative) for a sequence of length `n`,
as slicing does: negative indices count from the end, then the result is
clamped into `[0, n]`. -/
def pyIdx (n : Nat) (i : Int) : Nat :=
  let j : Int := if i < 0 then i + n else i
  let j2 : Int := if j < 0 then 0 else j
  (if j2 > (n : Int) then (n : Int) else j2).toNat

/-- Python slice `s[a:b]` on strings (clamping, negative-index semantics). -/
def pySlice (s : String) (a b : Int) : String :=
  let n := s.data.length
  String.mk ((s.data.drop (pyIdx n a)).take (pyIdx n b - pyIdx n a))

/-- Python slice `s[a:]`. -/
def pySliceFrom (s : String) (a : Int) : String :=
  pySlice s a (s.data.length : Int)

/-- Python `range(a, b)` over ints, as the list `[a, a+1, ..., b-1]`. -/
def pyRange (a b : Int) : List Int :=
  (List.range (b - a).toNat).map (fun k => a + k)

/-- `standoff.py`: `KEEP_LONGER = 'keep-longer'`. -/
def KEEP_LONGER : String := "keep-longer"

/-- `standoff.py`: `KEEP_SHORTER = 'keep-shorter'`. -/
def KEEP_SHORTER : String := "keep-shorter"

/-- `standoff.py`: `OVERLAP_RULES = [KEEP_LONGER, KEEP_SHORTER]`. -/
def OVERLAP_RULES : List String := [KEEP_LONGER, KEEP_SHORTER]

/-- `standoff.py`: `FULL_SPAN = 'full-span'`. -/
def FULL_SPAN : String := "full-span"

/-- `standoff.py`: `LAST_SPAN = 'last-span'`. -/
def LAST_SPAN : String := "last-span"

/-- `standoff.py`: `DISCONT_RULES = [FULL_SPAN, LAST_SPAN]`. -/
def DISCONT_RULES : List String := [FULL_SPAN, LAST_SPAN]

/-- The recognized overlap policies: `None` (which defaults to
`keep-longer`) or one of `OVERLAP_RULES`. -/
def ruleOk (r : Option String) : Prop :=
  r = none ∨ r = some KEEP_LONGER ∨ r = some KEEP_SHORTER

/-- `standoff.py` class `Textbound`: a textbound annotation with the fields
set by `__init__` (`skip_validation` starts `False`). -/
structure Textbound where
  id : String
  type_ : String
  start : Int
  end_ : Int
  text : String
  skip_validation : Bool := false
  deriving DecidableEq, Repr

/-- `Textbound._parse_offsets`: the offset field split on `;`, each part
split on a single space into exactly two `int()`-parsed fields; `none`
models the `ValueError` raised on any malformed part. -/
def _parse_offsets (offsets : String) : Option (List (Int × Int)) :=
  (splitCh ';' offsets.data).mapM (fun start_end =>
    match splitCh ' ' start_end with
    | [a, b] =>
      match pyInt? a, pyInt? b with
      | some x, some y => some (x, y)
      | _, _ => none
    | _ => none)

/-- `Textbound._resolve_discontinuous`: reduce a multi-pair offset list to a
single pair by the given rule (`None` defaults to `FULL_SPAN`); `none`
models the `ValueError('unknown rule to resolve discontinuous')`. -/
def _resolve_discontinuous (offsets : List (Int × Int)) (text : String)
    (discont_rule : Option String) : Option (List (Int × Int) × String) :=
  let rule := discont_rule.getD FULL_SPAN
  match offsets with
  | [o] => some ([o], text)
  | _ =>
    if rule = FULL_SPAN then
      match offsets.head?, offsets.getLast? with
      | some f, some l => some ([(f.1, l.2)], text)
      | _, _ => none
    else if rule = LAST_SPAN then
      match offsets.getLast? with
      | some l => some ([l], pySliceFrom text (l.1 - l.2))
      | none => none
    else none

/-- `Textbound.from_str`: parse one `ID<TAB>TYPE OFFSETS<TAB>TEXT` record.
Every `ValueError` raised inside the `try` block (wrong number of
tab-separated fields, no space in the type/offset field, unparseable
offsets, unknown discontinuity rule) is caught and re-raised as
`FormatError('Standoff: failed to parse %s' % string)`. -/
def from_str (string : String) (discont_rule : Option String) :
    Except String Textbound :=
  let fail : Except String Textbound :=
    .error ("Standoff: failed to parse " ++ string)
  match splitCh '\t' string.data with
  | [id_, type_offsets, text] =>
    match splitOnceCh ' ' type_offsets with
    | some (type_, offsetstr) =>
      match _parse_offsets (String.mk offsetstr) with
      | some offsets =>
        let was_discontinuous : Bool := offsets.length != 1
        match (if offsets.length != 1 then
                 _resolve_discontinuous offsets (String.mk text) discont_rule
               else some (offsets, String.mk text)) with
        | some (offsets', text') =>
          match offsets'.head? with
          | some (start, end_) =>
            .ok { id := String.mk id_, type_ := String.mk type_,
                  start := start, end_ := end_, text := text',
                  skip_validation :=
                    was_discontinuous && !(discont_rule == some LAST_SPAN) }
          | none => fail
        | none => fail
      | none => fail
    | none => fail
  | _ => fail

/-- `Textbound.is_valid`: the four assertions (`0 <= start <= len(text)`,
`0 <= end <= len(text)`, `start <= end`, `text[start:end] == self.text`);
`false` models a raised `AssertionError`. -/
def is_valid (t : Textbound) (text : String) : Bool :=
  decide (0 ≤ t.start) && decide (t.start ≤ (text.data.length : Int)) &&
  decide (0 ≤ t.end_) && decide (t.end_ ≤ (text.data.length : Int)) &&
  decide (t.start ≤ t.end_) &&
  (pySlice text t.start t.end_ == t.text)

/-- The body of the loop in `verify_textbounds`, for one textbound: spans
flagged `skip_validation` get their text unconditionally overwritten with
`text[start:end]` (the flag itself is not touched); all other spans must
pass `is_valid`, else a `FormatError` is raised. -/
def verifyOne (text : String) (t : Textbound) : Except String Textbound :=
  if t.skip_validation then
    .ok { t with text := pySlice text t.start t.end_ }
  else if is_valid t text then .ok t
  else .error ("Error verifying textbound " ++ t.id)

/-- `verify_textbounds`: process the spans in order, stopping at the first
failure (the Python version mutates the spans in place and returns `True`;
we return the updated list). -/
def verify_textbounds (textbounds : List Textbound) (text : String) :
    Except String (List Textbound) :=
  match textbounds with
  | [] => .ok []
  | t :: ts =>
    match verifyOne text t with
    | .error e => .error e
    | .ok t' =>
      match verify_textbounds ts text with
      | .error e => .error e
      | .ok ts' => .ok (t' :: ts')

/-- The raw non-overlap test from the `eliminate_overlaps` loop:
`t2.start >= t1.end or t2.end <= t1.start` means the pair is skipped. -/
def noOverlap (t1 t2 : Textbound) : Prop :=
  t2.start ≥ t1.end_ ∨ t2.end_ ≤ t1.start

instance (t1 t2 : Textbound) : Decidable (noOverlap t1 t2) := by
  unfold noOverlap; infer_instance

/-- Two textbounds' half-open ranges intersect:
`not (t2.start >= t1.end or t2.end <= t1.start)`. -/
def intersectsB (t1 t2 : Textbound) : Bool :=
  !(decide (t2.start ≥ t1.end_) || decide (t2.end_ ≤ t1.start))

/-- `select_eliminated_and_kept`, generalized over the handle `α` carrying
the textbound (the Python function receives the objects themselves and the
caller keys its `eliminate` dict by object identity; instantiating `α` with
`Nat × Textbound` lets the caller recover which of the two arguments was
returned as eliminated).  Returns `(eliminated, kept)`; `none` models the
`ValueError(overlap_rule)` for an unrecognized rule. -/
def selectGen {α : Type} (tb : α → Textbound) (x1 x2 : α)
    (overlap_rule : Option String) : Option (α × α) :=
  let rule := overlap_rule.getD KEEP_LONGER      -- OVERLAP_RULES[0] default
  let t1 := tb x1
  let t2 := tb x2
  if (t1.start, t1.end_) = (t2.start, t2.end_) then
    -- Identical span, pick arbitrarily (but consistently) by type
    if strLtB t2.type_.data t1.type_.data then some (x1, x2) else some (x2, x1)
  else if t1.end_ - t1.start = t2.end_ - t2.start then
    -- Same length, pick by starting position
    if t2.start < t1.start then some (x1, x2) else some (x2, x1)
  else if rule = KEEP_LONGER then
    if t1.end_ - t1.start < t2.end_ - t2.start then some (x1, x2)
    else some (x2, x1)
  else if rule = KEEP_SHORTER then
    if t2.end_ - t2.start < t1.end_ - t1.start then some (x1, x2)
    else some (x2, x1)
  else none

/-- `standoff.py` `select_eliminated_and_kept(t1, t2, overlap_rule)`. -/
def select_eliminated_and_kept (t1 t2 : Textbound)
    (overlap_rule : Option String) : Option (Textbound × Textbound) :=
  selectGen id t1 t2 overlap_rule

/-- A list element paired with its position, modelling a distinct Python
object (`is` comparison and identity-keyed dict membership become equality
and membership of the position). -/
abbrev ITb := Nat × Textbound

/-- Pair each element of a list with its position, starting at `n`. -/
def enumIdx : Nat → List Textbound → List ITb
  | _, [] => []
  | n, t :: ts => (n, t) :: enumIdx (n + 1) ts

/-- All ordered pairs of the nested `for t1 ... for t2 ...` loops, in loop
order. -/
def allPairs (l : List ITb) : List (ITb × ITb) :=
  l.flatMap (fun a => l.map (fun b => (a, b)))

/-- One iteration of the inner loop body of `eliminate_overlaps`: the
accumulator is the set of eliminated identities (`none` once a `ValueError`
has been raised).  Mirrors, in order: the `t1 is t2` test, the non-overlap
test, the `eliminate.get` test, and the elimination proper. -/
def elimStep (overlap_rule : Option String) (acc : Option (List Nat))
    (p : ITb × ITb) : Option (List Nat) :=
  match acc with
  | none => none
  | some elim =>
    if p.1.1 = p.2.1 then some elim
    else if noOverlap p.1.2 p.2.2 then some elim
    else if p.1.1 ∈ elim ∨ p.2.1 ∈ elim then some elim
    else
      match selectGen Prod.snd p.1 p.2 overlap_rule with
      | some (e, _) => some (e.1 :: elim)
      | none => none

/-- `eliminate_overlaps(textbounds, overlap_rule)`: run the quadratic pair
loop accumulating eliminated identities, then return the textbounds whose
identity was never eliminated (`none` models the uncaught `ValueError` of
an unrecognized rule). -/
def eliminate_overlaps (textbounds : List Textbound)
    (overlap_rule : Option String) : Option (List Textbound) :=
  let indexed := enumIdx 0 textbounds
  match (allPairs indexed).foldl (elimStep overlap_rule) (some []) with
  | some elim =>
    some ((indexed.filter (fun p => decide (p.1 ∉ elim))).map Prod.snd)
  | none => none

/-- A token of a sentence (`document.py` owns the class; only the fields
read by `_retag_sentence` are modelled; the mutable `tag` field is returned
instead of written). -/
structure Token where
  start : Int
  end_ : Int
  text : String
  deriving DecidableEq, Repr

/-- The inner scan of `_retag_sentence`: the first offset of
`range(token.start, token.end)` present in the offset map, and its span. -/
def findCovering (offset_ann : List (Int × Textbound)) (token : Token) :
    Option Textbound :=
  (pyRange token.start token.end_).findSome? (fun o => offset_ann.lookup o)

/-- One iteration of the token loop of `_retag_sentence`: returns the tag
assigned to the token and the new `prev_label` (which the code sets to
`label` unconditionally, `None` included). -/
def retagToken (offset_ann : List (Int × Textbound))
    (prev_label : Option String) (token : Token) : String × Option String :=
  match findCovering offset_ann token with
  | none => ("O", none)
  | some tb =>
    if prev_label = some tb.type_ ∧ tb.start < token.start then
      ("I-" ++ tb.type_, some tb.type_)
    else
      ("B-" ++ tb.type_, some tb.type_)

/-- `_retag_sentence(sentence, offset_ann)` from a given carried label:
the list of tags assigned to the tokens. -/
def _retag_sentence (offset_ann : List (Int × Textbound)) :
    Option String → List Token → List String
  | _, [] => []
  | prev, t :: ts =>
    let r := retagToken offset_ann prev t
    r.1 :: _retag_sentence offset_ann r.2 ts

/-- The carried-label rule as the specification describes it, for
comparison with the code: the last-seen annotated label is NOT reset by
`O` tokens (it only changes when a covering span's type differs from the
tracked label); the tag decision itself is as in the code. -/
def retagTokenSpecVersion (offset_ann : List (Int × Textbound))
    (prev_label : Option String) (token : Token) : String × Option String :=
  match findCovering offset_ann token with
  | none => ("O", prev_label)
  | some tb =>
    if prev_label = some tb.type_ ∧ tb.start < token.start then
      ("I-" ++ tb.type_, some tb.type_)
    else
      ("B-" ++ tb.type_, some tb.type_)

/-- `_retag_sentence` with the specification's carried-label rule. -/
def retagSentenceSpecVersion (offset_ann : List (Int × Textbound)) :
    Option String → List Token → List String
  | _, [] => []
  | prev, t :: ts =>
    let r := retagTokenSpecVersion offset_ann prev t
    r.1 :: retagSentenceSpecVersion offset_ann r.2 ts

/-- How one character behaves under one of the tokenization regexes of
`common.py`: part of a mergeable run matched by the first (or second)
alternative of the pattern, a single-character match, or not matched by the
pattern at all (so it lands in a separator field of `re.split`, merged with
its unmatched neighbours). -/
inductive CharCls
  | runA
  | runB
  | single
  | unmatched
  deriving DecidableEq, Repr

/-- Two adjacent characters end up in the same token exactly when they
belong to the same mergeable class (a greedy `+` run, or a run of
characters the pattern cannot match). -/
def canMerge : CharCls → CharCls → Bool
  | .runA, .runA => true
  | .runB, .runB => true
  | .unmatched, .unmatched => true
  | _, _ => false

/-- The token list produced by `re.split(pattern, text)` followed by
dropping empty strings, for a pattern whose single capturing group spans
the whole match: maximal runs of same-class mergeable characters become
one token, single-class characters become singleton tokens. -/
def tokenizeCls (cls : Char → CharCls) : List Char → List (List Char)
  | [] => []
  | [c] => [[c]]
  | c :: d :: rest =>
    match tokenizeCls cls (d :: rest) with
    | [] => [[c]]
    | t :: ts =>
      if canMerge (cls c) (cls d) then (c :: t) :: ts else [c] :: t :: ts

/-- `common.py` pattern `([^\W_]+|.)` (NERsuite-like): alphanumeric runs
are single tokens, every other character is its own token, except that
newline is not matched by `.` and so joins a run of unmatched characters.
(`\w` is modelled ASCII-only via `Char.isAlphanum`; the claims proved about
tokenization hold for every classifier.) -/
def defaultCls (c : Char) : CharCls :=
  if c.isAlphanum then .runA else if c = '\n' then .unmatched else .single

/-- `common.py` pattern `([0-9]+|[^\W0-9_]+|.)` (fine-grained): digit runs
and letter runs are separate tokens. -/
def fineCls (c : Char) : CharCls :=
  if c.isDigit then .runA
  else if c.isAlpha then .runB
  else if c = '\n' then .unmatched
  else .single

/-- `common.py` pattern `(\S+)` (whitespace tokenization): non-whitespace
runs are matches, whitespace runs are kept separator fields. -/
def spaceCls (c : Char) : CharCls :=
  if c.isWhitespace then .unmatched else .runA

/-- `common.py` `TOKENIZATION_REGEXS`, as the association of pattern names
to their character classifiers. -/
def TOKENIZATION_REGEXS : List (String × (Char → CharCls)) :=
  [("default", defaultCls), ("fine", fineCls), ("space", spaceCls)]

/-- `common.py` `sentence_to_tokens(text, tokenization_re)`: split the text
with the pattern (default pattern when `None`) and drop empty strings.  The
Python version then asserts that the concatenation of the tokens equals the
input. -/
def sentence_to_tokens (text : String)
    (tokenization_re : Option (Char → CharCls)) : List String :=
  let cls := tokenization_re.getD defaultCls
  (tokenizeCls cls text.data).map String.mk

/-! ### Helper lemmas -/

theorem String.data_injective {a b : String} (h : a.data = b.data) : a = b := by
  cases a
  cases b
  cases h
  rfl

theorem strLtB_irrefl : ∀ l : List Char, strLtB l l = false := by
  intro l
  induction l with
  | nil => rfl
  | cons c cs ih => simp [strLtB, ih]

theorem strLtB_asymm : ∀ a b : List Char, strLtB a b = true → strLtB b a = false := by
  intro a
  induction a with
  | nil => intro b h; cases b <;> simp_all [strLtB]
  | cons c cs ih =>
    intro b h
    cases b with
    | nil => simp_all [strLtB]
    | cons d ds =>
      simp only [strLtB] at h ⊢
      by_cases h1 : c.toNat < d.toNat
      · have h2 : ¬ d.toNat < c.toNat := by omega
        simp [h1, h2]
      · by_cases h2 : d.toNat < c.toNat
        · simp [h1, h2] at h
        · simp only [h1, h2, if_false] at h ⊢
          exact ih ds h

theorem strLtB_eq_of_not_lt : ∀ a b : List Char,
    strLtB a b = false → strLtB b a = false → a = b := by
  intro a
  induction a with
  | nil => intro b h1 h2; cases b <;> simp_all [strLtB]
  | cons c cs ih =>
    intro b h1 h2
    cases b with
    | nil => simp_all [strLtB]
    | cons d ds =>
      simp only [strLtB] at h1 h2
      by_cases hcd : c.toNat < d.toNat
      · simp [hcd] at h1
      · by_cases hdc : d.toNat < c.toNat
        · simp [hcd, hdc] at h2
        · simp only [hcd, hdc, if_false] at h1 h2
          have heq : c.toNat = d.toNat := by omega
          have hc : c = d :=
            Char.eq_of_val_eq (UInt32.ext (by simpa [Char.toNat] using heq))
          rw [hc, ih ds h1 h2]

theorem intersectsB_iff (t1 t2 : Textbound) :
    intersectsB t1 t2 = true ↔ (t2.start < t1.end_ ∧ t1.start < t2.end_) := by
  simp only [intersectsB, Bool.not_eq_true', Bool.or_eq_false_iff,
    decide_eq_false_iff_not, not_le, ge_iff_le]

theorem intersectsB_comm (t1 t2 : Textbound) :
    intersectsB t1 t2 = intersectsB t2 t1 := by
  by_cases h : intersectsB t1 t2 = true
  · have h2 : intersectsB t2 t1 = true := by
      rw [intersectsB_iff] at h ⊢
      omega
    rw [h, h2]
  · have h1 : intersectsB t1 t2 = false := by revert h; cases intersectsB t1 t2 <;> simp
    have h2 : intersectsB t2 t1 = false := by
      by_contra hc
      have : intersectsB t2 t1 = true := by revert hc; cases intersectsB t2 t1 <;> simp
      rw [intersectsB_iff] at this
      have : intersectsB t1 t2 = true := by rw [intersectsB_iff]; omega
      simp [this] at h1
    rw [h1, h2]

theorem intersectsB_not_noOverlap (t1 t2 : Textbound) :
    intersectsB t1 t2 = true ↔ ¬ noOverlap t1 t2 := by
  rw [intersectsB_iff]
  unfold noOverlap
  omega

theorem selectGen_ok {α : Type} (tb : α → Textbound) (x1 x2 : α)
    {rule : Option String} (hr : ruleOk rule) :
    ∃ e k, selectGen tb x1 x2 rule = some (e, k) ∧
      ((e = x1 ∧ k = x2) ∨ (e = x2 ∧ k = x1)) := by
  have hKL : ¬ (KEEP_SHORTER = KEEP_LONGER) := by decide
  rcases hr with h | h | h <;> subst h <;>
    simp only [selectGen, Option.getD_some, Option.getD_none, hKL, if_false,
      if_true] <;>
    split_ifs <;>
    exact ⟨_, _, rfl, by simp⟩

theorem enumIdx_fst_ge : ∀ (n : Nat) (l : List Textbound) (x : ITb),
    x ∈ enumIdx n l → n ≤ x.1 := by
  intro n l
  induction l generalizing n with
  | nil => intro x hx; simp [enumIdx] at hx
  | cons t ts ih =>
    intro x hx
    simp only [enumIdx, List.mem_cons] at hx
    rcases hx with h | h
    · subst h; exact Nat.le_refl n
    · have := ih (n + 1) x h
      omega

theorem enumIdx_pairwise (n : Nat) (l : List Textbound) :
    List.Pairwise (fun a b : ITb => a.1 < b.1) (enumIdx n l) := by
  induction l generalizing n with
  | nil => exact List.Pairwise.nil
  | cons t ts ih =>
    refine List.Pairwise.cons ?_ (ih (n + 1))
    intro b hb
    have := enumIdx_fst_ge (n + 1) ts b hb
    omega

theorem enumIdx_map_snd : ∀ (n : Nat) (l : List Textbound),
    (enumIdx n l).map Prod.snd = l := by
  intro n l
  induction l generalizing n with
  | nil => rfl
  | cons t ts ih => simp [enumIdx, ih]

theorem enumIdx_mem (n : Nat) (l : List Textbound) (i : Nat) (h : i < l.length) :
    (n + i, l.get ⟨i, h⟩) ∈ enumIdx n l := by
  induction l generalizing n i with
  | nil => simp at h
  | cons t ts ih =>
    cases i with
    | zero => simp [enumIdx]
    | succ j =>
      have hj : j < ts.length := by simpa using h
      have := ih (n + 1) j hj
      simp only [enumIdx, List.mem_cons]
      right
      have harith : n + (j + 1) = (n + 1) + j := by omega
      rw [harith]
      simpa using this

theorem enumIdx_mem_elim : ∀ (n : Nat) (l : List Textbound) (x : ITb),
    x ∈ enumIdx n l → ∃ i, ∃ h : i < l.length, x = (n + i, l.get ⟨i, h⟩) := by
  intro n l
  induction l generalizing n with
  | nil => intro x hx; simp [enumIdx] at hx
  | cons t ts ih =>
    intro x hx
    simp only [enumIdx, List.mem_cons] at hx
    rcases hx with h | h
    · exact ⟨0, by simp, by simpa using h⟩
    · obtain ⟨i, hi, hx⟩ := ih (n + 1) x h
      refine ⟨i + 1, by simpa using hi, ?_⟩
      have harith : n + (i + 1) = (n + 1) + i := by omega
      rw [harith]
      simpa using hx

theorem allPairs_mem_intro (l : List ITb) (a b : ITb) (ha : a ∈ l) (hb : b ∈ l) :
    (a, b) ∈ allPairs l := by
  simp only [allPairs, List.mem_flatMap]
  exact ⟨a, ha, by simp only [List.mem_map]; exact ⟨b, hb, rfl⟩⟩

theorem allPairs_mem_elim (l : List ITb) (q : ITb × ITb) (hq : q ∈ allPairs l) :
    q.1 ∈ l ∧ q.2 ∈ l := by
  simp only [allPairs, List.mem_flatMap, List.mem_map] at hq
  obtain ⟨a, ha, b, hb, hab⟩ := hq
  subst hab
  exact ⟨ha, hb⟩

theorem elimFold {rule : Option String} (hr : ruleOk rule) :
    ∀ (L : List (ITb × ITb)) (e0 : List Nat),
      ∃ e, L.foldl (elimStep rule) (some e0) = some e ∧
        (∀ k, k ∈ e0 → k ∈ e) ∧
        (∀ q, q ∈ L → q.1.1 ≠ q.2.1 → intersectsB q.1.2 q.2.2 = true →
            q.1.1 ∈ e ∨ q.2.1 ∈ e) ∧
        (∀ k, k ∈ e → k ∈ e0 ∨ ∃ q, q ∈ L ∧ q.1.1 ≠ q.2.1 ∧
            intersectsB q.1.2 q.2.2 = true ∧ (k = q.1.1 ∨ k = q.2.1)) := by
  intro L
  induction L with
  | nil =>
    intro e0
    exact ⟨e0, rfl, fun k hk => hk, by simp, fun k hk => Or.inl hk⟩
  | cons q L ih =>
    intro e0
    by_cases h1 : q.1.1 = q.2.1
    · have hstep : elimStep rule (some e0) q = some e0 := by
        simp [elimStep, h1]
      obtain ⟨e, he, hmono, hcov, hsrc⟩ := ih e0
      refine ⟨e, by simpa [List.foldl_cons, hstep] using he, hmono, ?_, ?_⟩
      · intro p hp hne hint
        rcases List.mem_cons.mp hp with h | h
        · exact absurd (h ▸ h1) hne
        · exact hcov p h hne hint
      · intro k hk
        rcases hsrc k hk with h | ⟨p, hp, rest⟩
        · exact Or.inl h
        · exact Or.inr ⟨p, List.mem_cons_of_mem _ hp, rest⟩
    · by_cases h2 : noOverlap q.1.2 q.2.2
      · have hstep : elimStep rule (some e0) q = some e0 := by
          simp [elimStep, h1, h2]
        obtain ⟨e, he, hmono, hcov, hsrc⟩ := ih e0
        refine ⟨e, by simpa [List.foldl_cons, hstep] using he, hmono, ?_, ?_⟩
        · intro p hp hne hint
          rcases List.mem_cons.mp hp with h | h
          · subst h
            rw [intersectsB_not_noOverlap] at hint
            exact absurd h2 hint
          · exact hcov p h hne hint
        · intro k hk
          rcases hsrc k hk with h | ⟨p, hp, rest⟩
          · exact Or.inl h
          · exact Or.inr ⟨p, List.mem_cons_of_mem _ hp, rest⟩
      · by_cases h3 : q.1.1 ∈ e0 ∨ q.2.1 ∈ e0
        · have hstep : elimStep rule (some e0) q = some e0 := by
            simp only [elimStep, h1, h2, h3, if_false, if_true]
          obtain ⟨e, he, hmono, hcov, hsrc⟩ := ih e0
          refine ⟨e, by simpa [List.foldl_cons, hstep] using he, hmono, ?_, ?_⟩
          · intro p hp hne hint
            rcases List.mem_cons.mp hp with h | h
            · subst h
              rcases h3 with h | h
              · exact Or.inl (hmono _ h)
              · exact Or.inr (hmono _ h)
            · exact hcov p h hne hint
          · intro k hk
            rcases hsrc k hk with h | ⟨p, hp, rest⟩
            · exact Or.inl h
            · exact Or.inr ⟨p, List.mem_cons_of_mem _ hp, rest⟩
        · obtain ⟨ep, kp, hsel, hor⟩ := selectGen_ok Prod.snd q.1 q.2 hr
          have hstep : elimStep rule (some e0) q = some (ep.1 :: e0) := by
            simp only [elimStep, h1, h2, h3, if_false, hsel]
          obtain ⟨e, he, hmono, hcov, hsrc⟩ := ih (ep.1 :: e0)
          have hint : intersectsB q.1.2 q.2.2 = true := by
            rw [intersectsB_not_noOverlap]
            exact h2
          refine ⟨e, by simpa [List.foldl_cons, hstep] using he, ?_, ?_, ?_⟩
          · intro k hk
            exact hmono k (List.mem_cons_of_mem _ hk)
          · intro p hp hne hint2
            rcases List.mem_cons.mp hp with h | h
            · subst h
              have hin : ep.1 ∈ e := hmono ep.1 (List.mem_cons_self _ _)
              rcases hor with ⟨h, _⟩ | ⟨h, _⟩
              · exact Or.inl (h ▸ hin)
              · exact Or.inr (h ▸ hin)
            · exact hcov p h hne hint2
          · intro k hk
            rcases hsrc k hk with h | ⟨p, hp, rest⟩
            · rcases List.mem_cons.mp h with h | h
              · subst h
                refine Or.inr ⟨q, List.mem_cons_self _ _, h1, hint, ?_⟩
                rcases hor with ⟨h, _⟩ | ⟨h, _⟩
                · exact Or.inl (by rw [h])
                · exact Or.inr (by rw [h])
              · exact Or.inl h
            · exact Or.inr ⟨p, List.mem_cons_of_mem _ hp, rest⟩

theorem eliminate_overlaps_eq (tbs : List Textbound) {rule : Option String}
    (hr : ruleOk rule) :
    ∃ e : List Nat, eliminate_overlaps tbs rule =
        some (((enumIdx 0 tbs).filter (fun p => decide (p.1 ∉ e))).map Prod.snd) ∧
      (∀ q, q ∈ allPairs (enumIdx 0 tbs) → q.1.1 ≠ q.2.1 →
          intersectsB q.1.2 q.2.2 = true → q.1.1 ∈ e ∨ q.2.1 ∈ e) ∧
      (∀ k, k ∈ e → ∃ q, q ∈ allPairs (enumIdx 0 tbs) ∧ q.1.1 ≠ q.2.1 ∧
          intersectsB q.1.2 q.2.2 = true ∧ (k = q.1.1 ∨ k = q.2.1)) := by
  obtain ⟨e, he, _, hcov, hsrc⟩ := elimFold hr (allPairs (enumIdx 0 tbs)) []
  refine ⟨e, ?_, hcov, ?_⟩
  · simp only [eliminate_overlaps, he]
  · intro k hk
    rcases hsrc k hk with h | h
    · simp at h
    · exact h

/-- C2: after `eliminate_overlaps`, no two spans at distinct positions of
the output intersect. -/
theorem c2_no_surviving_overlap (tbs : List Textbound) (rule : Option String)
    (hr : ruleOk rule) (out : List Textbound)
    (hout : eliminate_overlaps tbs rule = some out) :
    List.Pairwise (fun a b => intersectsB a b = false) out := by
  obtain ⟨e, he, hcov, _⟩ := eliminate_overlaps_eq tbs hr
  rw [hout] at he
  have hval := Option.some.inj he
  have hpw0 : List.Pairwise (fun a b : ITb => a.1 < b.1) (enumIdx 0 tbs) :=
    enumIdx_pairwise 0 tbs
  have hpw1 : List.Pairwise
      (fun a b : ITb => a.1 ∉ e → b.1 ∉ e → intersectsB a.2 b.2 = false)
      (enumIdx 0 tbs) := by
    refine hpw0.imp_of_mem ?_
    intro a b ha hb hlt hna hnb
    by_contra hc
    have htrue : intersectsB a.2 b.2 = true := by
      revert hc; cases intersectsB a.2 b.2 <;> simp
    have := hcov (a, b) (allPairs_mem_intro _ a b ha hb) (Nat.ne_of_lt hlt) htrue
    rcases this with h | h
    · exact hna h
    · exact hnb h
  have hpw2 : List.Pairwise
      (fun a b : ITb => a.1 ∉ e → b.1 ∉ e → intersectsB a.2 b.2 = false)
      ((enumIdx 0 tbs).filter (fun p => decide (p.1 ∉ e))) :=
    hpw1.sublist (List.filter_sublist _)
  have hpw3 : List.Pairwise (fun a b : ITb => intersectsB a.2 b.2 = false)
      ((enumIdx 0 tbs).filter (fun p => decide (p.1 ∉ e))) := by
    refine hpw2.imp_of_mem ?_
    intro a b ha hb himp
    exact himp (of_decide_eq_true (List.mem_filter.mp ha).2)
      (of_decide_eq_true (List.mem_filter.mp hb).2)
  rw [hval]
  exact List.pairwise_map.mpr hpw3

/-- The two identical-range spans of the specification's scenario: type
`Drug` and type `Chemical`, both over [0,5). -/
def drugTb : Textbound :=
  { id := "T1", type_ := "Drug", start := 0, end_ := 5,
    text := "abcde", skip_validation := false }

/-- See `drugTb`. -/
def chemTb : Textbound :=
  { id := "T2", type_ := "Chemical", start := 0, end_ := 5,
    text := "abcde", skip_validation := false }

/-- C2 witness: a concrete run of the resolver, instantiating the theorem. -/
theorem c2_no_surviving_overlap_witness :
    List.Pairwise (fun a b => intersectsB a b = false) [chemTb] :=
  c2_no_surviving_overlap [drugTb, chemTb] none (Or.inl rfl) [chemTb]
    (by decide)

/-- C3 (amended): every span eliminated by `eliminate_overlaps` intersects
some other span of the input list; the returned subset is intersection-free
but need not be maximal. -/
theorem c3_eliminated_spans_intersect_something (tbs : List Textbound)
    (rule : Option String) (hr : ruleOk rule) (out : List Textbound)
    (hout : eliminate_overlaps tbs rule = some out)
    (i : Nat) (hi : i < tbs.length) (helim : tbs.get ⟨i, hi⟩ ∉ out) :
    ∃ j, ∃ hj : j < tbs.length, j ≠ i ∧
      intersectsB (tbs.get ⟨i, hi⟩) (tbs.get ⟨j, hj⟩) = true := by
  obtain ⟨e, he, _, hsrc⟩ := eliminate_overlaps_eq tbs hr
  rw [hout] at he
  have hval := Option.some.inj he
  have hie : i ∈ e := by
    by_contra hne
    apply helim
    rw [hval]
    have hmem : (0 + i, tbs.get ⟨i, hi⟩) ∈ enumIdx 0 tbs := enumIdx_mem 0 tbs i hi
    rw [Nat.zero_add] at hmem
    have hfil : (i, tbs.get ⟨i, hi⟩) ∈
        (enumIdx 0 tbs).filter (fun p => decide (p.1 ∉ e)) :=
      List.mem_filter.mpr ⟨hmem, decide_eq_true hne⟩
    exact List.mem_map.mpr ⟨_, hfil, rfl⟩
  obtain ⟨q, hq, hne, hint, hk⟩ := hsrc i hie
  obtain ⟨hq1, hq2⟩ := allPairs_mem_elim _ q hq
  obtain ⟨i1, h1, hx1⟩ := enumIdx_mem_elim 0 tbs q.1 hq1
  obtain ⟨i2, h2, hx2⟩ := enumIdx_mem_elim 0 tbs q.2 hq2
  rw [Nat.zero_add] at hx1 hx2
  rcases hk with hk | hk
  · have hii : i = i1 := by rw [hk, hx1]
    subst hii
    refine ⟨i2, h2, ?_, ?_⟩
    · intro hji
      apply hne
      rw [hx1, hx2]
      exact hji.symm
    · have hv1 : q.1.2 = tbs.get ⟨i, h1⟩ := by rw [hx1]
      have hv2 : q.2.2 = tbs.get ⟨i2, h2⟩ := by rw [hx2]
      rw [hv1, hv2] at hint
      have : tbs.get ⟨i, h1⟩ = tbs.get ⟨i, hi⟩ := rfl
      rw [this] at hint
      exact hint
  · have hii : i = i2 := by rw [hk, hx2]
    subst hii
    refine ⟨i1, h1, ?_, ?_⟩
    · intro hji
      apply hne
      rw [hx1, hx2]
      exact hji
    · have hv1 : q.1.2 = tbs.get ⟨i1, h1⟩ := by rw [hx1]
      have hv2 : q.2.2 = tbs.get ⟨i, h2⟩ := by rw [hx2]
      rw [hv1, hv2] at hint
      have heq : tbs.get ⟨i, h2⟩ = tbs.get ⟨i, hi⟩ := rfl
      rw [heq] at hint
      rw [intersectsB_comm] at hint
      exact hint

/-- Span A = [0,2) of the non-maximality example. -/
def spanA : Textbound :=
  { id := "T1", type_ := "X", start := 0, end_ := 2,
    text := "", skip_validation := false }

/-- Span B = [1,6) of the non-maximality example. -/
def spanB : Textbound :=
  { id := "T2", type_ := "X", start := 1, end_ := 6,
    text := "", skip_validation := false }

/-- Span C = [5,20) of the non-maximality example. -/
def spanC : Textbound :=
  { id := "T3", type_ := "X", start := 5, end_ := 20,
    text := "", skip_validation := false }

/-- C3 counterexample: with spans A = [0,2), B = [1,6), C = [5,20) under the
default `keep-longer` policy, A is eliminated (due to B) and B is eliminated
(due to C), so only C is returned; but A does not intersect C, so A could be
added back without creating an intersecting pair — the returned subset is
NOT maximal. -/
theorem c3_counterexample :
    eliminate_overlaps [spanA, spanB, spanC] none = some [spanC] ∧
    intersectsB spanA spanC = false ∧ intersectsB spanC spanA = false ∧
    spanA ≠ spanC := by
  refine ⟨by decide, by decide, by decide, by decide⟩

/-- C3 witness: the amended theorem applied to the counterexample list, at
the eliminated span A (position 0). -/
theorem c3_eliminated_spans_intersect_something_witness :
    ∃ j, ∃ hj : j < ([spanA, spanB, spanC] : List Textbound).length, j ≠ 0 ∧
      intersectsB (([spanA, spanB, spanC] : List Textbound).get ⟨0, by decide⟩)
        (([spanA, spanB, spanC] : List Textbound).get ⟨j, hj⟩) = true :=
  c3_eliminated_spans_intersect_something [spanA, spanB, spanC] none
    (Or.inl rfl) [spanC] (by decide) 0 (by decide) (by decide)

theorem select_identical_range (rule : Option String) (t1 t2 : Textbound)
    (hrange : (t1.start, t1.end_) = (t2.start, t2.end_)) :
    select_eliminated_and_kept t1 t2 rule =
      if strLtB t2.type_.data t1.type_.data = true then some (t1, t2)
      else some (t2, t1) := by
  simp only [select_eliminated_and_kept, selectGen, id_eq]
  rw [if_pos hrange]

theorem select_same_length (rule : Option String) (t1 t2 : Textbound)
    (hrange : (t1.start, t1.end_) ≠ (t2.start, t2.end_))
    (hlen : t1.end_ - t1.start = t2.end_ - t2.start) :
    select_eliminated_and_kept t1 t2 rule =
      if t2.start < t1.start then some (t1, t2) else some (t2, t1) := by
  simp only [select_eliminated_and_kept, selectGen, id_eq]
  rw [if_neg hrange, if_pos hlen]

theorem select_keep_longer (rule : Option String) (t1 t2 : Textbound)
    (hrule : rule = none ∨ rule = some KEEP_LONGER)
    (hrange : (t1.start, t1.end_) ≠ (t2.start, t2.end_))
    (hlen : t1.end_ - t1.start ≠ t2.end_ - t2.start) :
    select_eliminated_and_kept t1 t2 rule =
      if t1.end_ - t1.start < t2.end_ - t2.start then some (t1, t2)
      else some (t2, t1) := by
  rcases hrule with h | h <;> subst h <;>
    simp only [select_eliminated_and_kept, selectGen, id_eq, Option.getD_none,
      Option.getD_some] <;>
    rw [if_neg hrange, if_neg hlen] <;> simp

theorem select_keep_shorter (t1 t2 : Textbound)
    (hrange : (t1.start, t1.end_) ≠ (t2.start, t2.end_))
    (hlen : t1.end_ - t1.start ≠ t2.end_ - t2.start) :
    select_eliminated_and_kept t1 t2 (some KEEP_SHORTER) =
      if t2.end_ - t2.start < t1.end_ - t1.start then some (t1, t2)
      else some (t2, t1) := by
  have hKL : ¬ (KEEP_SHORTER = KEEP_LONGER) := by decide
  simp only [select_eliminated_and_kept, selectGen, id_eq, Option.getD_some]
  rw [if_neg hrange, if_neg hlen, if_neg hKL]
  simp

/-- If two type labels differ and the first is not greater, the second is
greater (Python string comparison is a total order). -/
theorem strLtB_of_ne_of_not_lt {a b : String} (hne : a ≠ b)
    (h : strLtB b.data a.data = false) : strLtB a.data b.data = true := by
  by_contra hc
  have h2 : strLtB a.data b.data = false := by
    revert hc; cases strLtB a.data b.data <;> simp
  exact hne (String.data_injective (strLtB_eq_of_not_lt _ _ h2 h))

/-- C1 (amended): for an intersecting pair with identical ranges and
distinct type labels, `select_eliminated_and_kept` keeps the span whose type
label is lexicographically SMALLER and eliminates the greater one, under
every recognized overlap policy; in particular, for the identical-range
spans of types `Drug` and `Chemical`, `eliminate_overlaps` keeps the
`Chemical` span. -/
theorem c1_identical_range_keeps_smaller_type :
    (∀ (rule : Option String) (t1 t2 : Textbound), ruleOk rule →
       intersectsB t1 t2 = true →
       (t1.start, t1.end_) = (t2.start, t2.end_) →
       t1.type_ ≠ t2.type_ →
       ∃ elim keep, select_eliminated_and_kept t1 t2 rule = some (elim, keep) ∧
         strLtB keep.type_.data elim.type_.data = true ∧
         ((elim = t1 ∧ keep = t2) ∨ (elim = t2 ∧ keep = t1))) ∧
    eliminate_overlaps [drugTb, chemTb] none = some [chemTb] := by
  constructor
  · intro rule t1 t2 _ _ hrange hty
    rw [select_identical_range rule t1 t2 hrange]
    by_cases hlt : strLtB t2.type_.data t1.type_.data = true
    · rw [if_pos hlt]
      exact ⟨t1, t2, rfl, hlt, Or.inl ⟨rfl, rfl⟩⟩
    · have hfalse : strLtB t2.type_.data t1.type_.data = false := by
        revert hlt; cases strLtB t2.type_.data t1.type_.data <;> simp
      rw [if_neg hlt]
      exact ⟨t2, t1, rfl, strLtB_of_ne_of_not_lt hty hfalse, Or.inr ⟨rfl, rfl⟩⟩
  · decide

/-- C1 counterexample: the resolver keeps the `Chemical` span (the
lexicographically smaller type label), not the `Drug` span the claim says
survives. -/
theorem c1_counterexample :
    eliminate_overlaps [drugTb, chemTb] none = some [chemTb] ∧
    chemTb ≠ drugTb ∧ strLtB chemTb.type_.data drugTb.type_.data = true := by
  refine ⟨by decide, by decide, by decide⟩

/-- C1 witness: the amended theorem at the `Drug`/`Chemical` pair. -/
theorem c1_identical_range_keeps_smaller_type_witness :
    ∃ elim keep,
      select_eliminated_and_kept drugTb chemTb none = some (elim, keep) ∧
      strLtB keep.type_.data elim.type_.data = true ∧
      ((elim = drugTb ∧ keep = chemTb) ∨ (elim = chemTb ∧ keep = drugTb)) :=
  c1_identical_range_keeps_smaller_type.1 none drugTb chemTb (Or.inl rfl)
    (by decide) (by decide) (by decide)

/-- C4 (amended): for an intersecting pair of equal length at different
positions, `select_eliminated_and_kept` keeps the span with the SMALLER
start offset and eliminates the one with the larger start, under every
recognized overlap policy. -/
theorem c4_equal_length_keeps_smaller_start :
    ∀ (rule : Option String) (t1 t2 : Textbound), ruleOk rule →
      intersectsB t1 t2 = true →
      t1.end_ - t1.start = t2.end_ - t2.start →
      (t1.start, t1.end_) ≠ (t2.start, t2.end_) →
      ∃ elim keep, select_eliminated_and_kept t1 t2 rule = some (elim, keep) ∧
        keep.start < elim.start ∧
        ((elim = t1 ∧ keep = t2) ∨ (elim = t2 ∧ keep = t1)) := by
  intro rule t1 t2 _ _ hlen hrange
  have hne : ¬ (t1.start = t2.start ∧ t1.end_ = t2.end_) := by
    simpa [Prod.ext_iff] using hrange
  rw [select_same_length rule t1 t2 hrange hlen]
  by_cases hst : t2.start < t1.start
  · rw [if_pos hst]
    exact ⟨t1, t2, rfl, hst, Or.inl ⟨rfl, rfl⟩⟩
  · have hst2 : t1.start < t2.start := by omega
    rw [if_neg hst]
    exact ⟨t2, t1, rfl, hst2, Or.inr ⟨rfl, rfl⟩⟩

/-- Spans of equal length 3 at different positions, for the C4 example. -/
def eqLenA : Textbound :=
  { id := "T1", type_ := "X", start := 0, end_ := 3,
    text := "", skip_validation := false }

/-- See `eqLenA`. -/
def eqLenB : Textbound :=
  { id := "T2", type_ := "X", start := 1, end_ := 4,
    text := "", skip_validation := false }

/-- C4 counterexample: for equal-length spans [0,3) and [1,4) the code
eliminates the larger-start span and keeps the SMALLER-start one, contrary
to the claim that the larger start survives. -/
theorem c4_counterexample :
    select_eliminated_and_kept eqLenA eqLenB none = some (eqLenB, eqLenA) ∧
    eqLenA.start < eqLenB.start ∧ eqLenA ≠ eqLenB := by
  refine ⟨by decide, by decide, by decide⟩

/-- C4 witness: the amended theorem at the pair [0,3), [1,4). -/
theorem c4_equal_length_keeps_smaller_start_witness :
    ∃ elim keep,
      select_eliminated_and_kept eqLenA eqLenB none = some (elim, keep) ∧
      keep.start < elim.start ∧
      ((elim = eqLenA ∧ keep = eqLenB) ∨ (elim = eqLenB ∧ keep = eqLenA)) :=
  c4_equal_length_keeps_smaller_start none eqLenA eqLenB (Or.inl rfl)
    (by decide) (by decide) (by decide)

/-- C7 (amended): the eliminate/keep decision of
`select_eliminated_and_kept` is independent of argument order whenever the
two intersecting spans differ in range or in type label; when both the
range and the type label coincide, the decision is NOT symmetric: whichever
span is passed second is eliminated. -/
theorem c7_symmetry :
    (∀ (rule : Option String) (t1 t2 : Textbound), ruleOk rule →
       intersectsB t1 t2 = true →
       ((t1.start, t1.end_) ≠ (t2.start, t2.end_) ∨ t1.type_ ≠ t2.type_) →
       select_eliminated_and_kept t1 t2 rule =
         select_eliminated_and_kept t2 t1 rule) ∧
    (∀ (rule : Option String) (t1 t2 : Textbound), ruleOk rule →
       (t1.start, t1.end_) = (t2.start, t2.end_) → t1.type_ = t2.type_ →
       select_eliminated_and_kept t1 t2 rule = some (t2, t1)) := by
  constructor
  · intro rule t1 t2 hr _ hdiff
    by_cases hrange : (t1.start, t1.end_) = (t2.start, t2.end_)
    · have hrange2 : (t2.start, t2.end_) = (t1.start, t1.end_) := hrange.symm
      have hty : t1.type_ ≠ t2.type_ := by
        rcases hdiff with h | h
        · exact absurd hrange h
        · exact h
      rw [select_identical_range rule t1 t2 hrange,
        select_identical_range rule t2 t1 hrange2]
      by_cases hlt : strLtB t2.type_.data t1.type_.data = true
      · have hopp : strLtB t1.type_.data t2.type_.data = false :=
          strLtB_asymm _ _ hlt
        rw [if_pos hlt, if_neg (by simp [hopp])]
      · have hfalse : strLtB t2.type_.data t1.type_.data = false := by
          revert hlt; cases strLtB t2.type_.data t1.type_.data <;> simp
        have hforward : strLtB t1.type_.data t2.type_.data = true :=
          strLtB_of_ne_of_not_lt hty hfalse
        rw [if_neg hlt, if_pos hforward]
    · have hrange2 : (t2.start, t2.end_) ≠ (t1.start, t1.end_) :=
        fun h => hrange h.symm
      have hne : ¬ (t1.start = t2.start ∧ t1.end_ = t2.end_) := by
        simpa [Prod.ext_iff] using hrange
      by_cases hlen : t1.end_ - t1.start = t2.end_ - t2.start
      · rw [select_same_length rule t1 t2 hrange hlen,
          select_same_length rule t2 t1 hrange2 hlen.symm]
        by_cases hst : t2.start < t1.start
        · rw [if_pos hst, if_neg (by omega)]
        · have h2 : t1.start < t2.start := by omega
          rw [if_neg hst, if_pos h2]
      · have hlen2 : t2.end_ - t2.start ≠ t1.end_ - t1.start :=
          fun h => hlen h.symm
        rcases hr with h | h | h
        · rw [select_keep_longer rule t1 t2 (Or.inl h) hrange hlen,
            select_keep_longer rule t2 t1 (Or.inl h) hrange2 hlen2]
          by_cases hlt : t1.end_ - t1.start < t2.end_ - t2.start
          · rw [if_pos hlt, if_neg (by omega)]
          · rw [if_neg hlt, if_pos (by omega)]
        · rw [select_keep_longer rule t1 t2 (Or.inr h) hrange hlen,
            select_keep_longer rule t2 t1 (Or.inr h) hrange2 hlen2]
          by_cases hlt : t1.end_ - t1.start < t2.end_ - t2.start
          · rw [if_pos hlt, if_neg (by omega)]
          · rw [if_neg hlt, if_pos (by omega)]
        · subst h
          rw [select_keep_shorter t1 t2 hrange hlen,
            select_keep_shorter t2 t1 hrange2 hlen2]
          by_cases hlt : t2.end_ - t2.start < t1.end_ - t1.start
          · rw [if_pos hlt, if_neg (by omega)]
          · rw [if_neg hlt, if_pos (by omega)]
  · intro rule t1 t2 _ hrange hty
    rw [select_identical_range rule t1 t2 hrange]
    have hirr : strLtB t2.type_.data t1.type_.data = false := by
      rw [hty]
      exact strLtB_irrefl _
    rw [if_neg (by simp [hirr])]

/-- First span of the full-tie pair (same range, same type, distinct id). -/
def tieA : Textbound :=
  { id := "T1", type_ := "X", start := 0, end_ := 5,
    text := "", skip_validation := false }

/-- Second span of the full-tie pair. -/
def tieB : Textbound :=
  { id := "T2", type_ := "X", start := 0, end_ := 5,
    text := "", skip_validation := false }

/-- C7 counterexample: for two distinct intersecting spans with the same
range and the same type label, swapping the argument order swaps which span
is eliminated, so the decision is NOT order-independent. -/
theorem c7_counterexample :
    select_eliminated_and_kept tieA tieB none = some (tieB, tieA) ∧
    select_eliminated_and_kept tieB tieA none = some (tieA, tieB) ∧
    tieA ≠ tieB := by
  refine ⟨by decide, by decide, by decide⟩

/-- C7 witness: order-independence at the `Drug`/`Chemical` pair. -/
theorem c7_symmetry_witness :
    select_eliminated_and_kept drugTb chemTb none =
      select_eliminated_and_kept chemTb drugTb none :=
  c7_symmetry.1 none drugTb chemTb (Or.inl rfl) (by decide)
    (Or.inr (by decide))

/-- C5 (amended): the carried label of `_retag_sentence` starts as `None`
at sentence start and, after each token, equals that token's own label:
`None` for `O` tokens (so `O` tokens DO reset it), and the covering span's
type otherwise — independently of the previously tracked label. -/
theorem c5_prev_label_reset :
    (∀ (offset_ann : List (Int × Textbound)) (prev : Option String)
       (token : Token),
       (retagToken offset_ann prev token).2 =
         (findCovering offset_ann token).map Textbound.type_) ∧
    (∀ (offset_ann : List (Int × Textbound)) (prev : Option String)
       (token : Token) (ts : List Token),
       _retag_sentence offset_ann prev (token :: ts) =
         (retagToken offset_ann prev token).1 ::
           _retag_sentence offset_ann
             ((findCovering offset_ann token).map Textbound.type_) ts) := by
  have hstep : ∀ (offset_ann : List (Int × Textbound)) (prev : Option String)
      (token : Token),
      (retagToken offset_ann prev token).2 =
        (findCovering offset_ann token).map Textbound.type_ := by
    intro offset_ann prev token
    unfold retagToken
    cases findCovering offset_ann token with
    | none => rfl
    | some tb =>
      by_cases h : prev = some tb.type_ ∧ tb.start < token.start
      · simp [h]
      · simp [h]
  refine ⟨hstep, ?_⟩
  intro offset_ann prev token ts
  show (let r := retagToken offset_ann prev token
        r.1 :: _retag_sentence offset_ann r.2 ts) = _
  simp only []
  rw [hstep]

/-- The three tokens of the C5 example sentence. -/
def c5Tokens : List Token := [⟨0, 1, "a"⟩, ⟨1, 2, "b"⟩, ⟨2, 3, "c"⟩]

/-- The C5 example offset map: offset 0 is covered by a type-`X` span
[0,1), offset 2 by a type-`X` span starting at 1; offset 1 is uncovered. -/
def c5Ann : List (Int × Textbound) :=
  [((0 : Int), { id := "T1", type_ := "X", start := 0, end_ := 1,
                 text := "x", skip_validation := false }),
   ((2 : Int), { id := "T2", type_ := "X", start := 1, end_ := 3,
                 text := "xx", skip_validation := false })]

/-- C5 counterexample: the code resets the carried label on the `O` middle
token, so the third token is tagged `B-X`; under the claim's rule (carried
label not reset by `O` tokens) it would be tagged `I-X`. -/
theorem c5_counterexample :
    _retag_sentence c5Ann none c5Tokens = ["B-X", "O", "B-X"] ∧
    retagSentenceSpecVersion c5Ann none c5Tokens = ["B-X", "O", "I-X"] ∧
    _retag_sentence c5Ann none c5Tokens ≠
      retagSentenceSpecVersion c5Ann none c5Tokens := by
  refine ⟨by decide, by decide, by decide⟩

theorem mk_data (s : String) : String.mk s.data = s := by
  cases s
  rfl

theorem pyIdx_of_neg (n : Nat) (i : Int) (hneg : i < 0) (hge : 0 ≤ i + n) :
    pyIdx n i = (i + n).toNat := by
  unfold pyIdx
  dsimp only
  rw [if_pos hneg, if_neg (by omega), if_neg (by omega)]

theorem pyIdx_len (n : Nat) : pyIdx n (n : Int) = n := by
  unfold pyIdx
  dsimp only
  rw [if_neg (by omega), if_neg (by omega), if_neg (by omega)]
  omega

theorem pyIdx_zero (n : Nat) : pyIdx n 0 = 0 := by
  unfold pyIdx
  dsimp only
  rw [if_neg (by omega), if_neg (by omega), if_neg (by omega)]
  rfl

theorem pySliceFrom_zero (s : String) : pySliceFrom s 0 = s := by
  unfold pySliceFrom pySlice
  dsimp only
  rw [pyIdx_zero, pyIdx_len]
  simp only [List.drop_zero, Nat.sub_zero, List.take_length]

theorem pySliceFrom_suffix (s : String) (k : Int) (h1 : 0 < k)
    (h2 : k ≤ (s.data.length : Int)) :
    (pySliceFrom s (-k)).data = s.data.drop (s.data.length - k.toNat) := by
  unfold pySliceFrom pySlice
  dsimp only
  rw [pyIdx_of_neg s.data.length (-k) (by omega) (by omega), pyIdx_len]
  have hA : (-k + (s.data.length : Int)).toNat = s.data.length - k.toNat := by
    omega
  rw [hA]
  have hB : s.data.length - (s.data.length - k.toNat) = k.toNat := by omega
  rw [hB]
  apply List.take_of_length_le
  simp only [List.length_drop]
  omega

/-- C6 (amended): a deferred-validation (`skip_validation`) span never makes
`verify_textbounds` fail: its text is unconditionally overwritten with
`document_text[start:end]`; the deferred flag itself is NOT cleared (it
remains set, though nothing reads it afterwards).  A record with offsets
`0 5;10 15` under the default full-span policy parses to a single deferred
span [0,15), and after validation its text equals `document_text[0:15]`. -/
theorem c6_deferred_backfill :
    (∀ (t : Textbound) (text : String), t.skip_validation = true →
       verify_textbounds [t] text =
         .ok [{ t with text := pySlice text t.start t.end_ }] ∧
       ({ t with text := pySlice text t.start t.end_ } :
           Textbound).skip_validation = true) ∧
    (∃ ann : Textbound,
       from_str "T1\tPerson 0 5;10 15\tsometext" none = .ok ann ∧
       ann.start = 0 ∧ ann.end_ = 15 ∧ ann.skip_validation = true ∧
       ∃ ann2 : Textbound,
         verify_textbounds [ann] "ABCDEFGHIJKLMNOPQR" = .ok [ann2] ∧
         ann2.text = pySlice "ABCDEFGHIJKLMNOPQR" 0 15) := by
  constructor
  · intro t text h
    constructor
    · simp [verify_textbounds, verifyOne, h]
    · simpa using h
  · refine ⟨{ id := "T1", type_ := "Person", start := 0, end_ := 15,
              text := "sometext", skip_validation := true },
      by decide, rfl, rfl, rfl,
      { id := "T1", type_ := "Person", start := 0, end_ := 15,
        text := "ABCDEFGHIJKLMNO", skip_validation := true },
      by decide, by decide⟩

/-- A concrete deferred-validation span for the C6 example. -/
def deferTb : Textbound :=
  { id := "T9", type_ := "Y", start := 0, end_ := 2,
    text := "ORIG", skip_validation := true }

/-- C6 counterexample: after `verify_textbounds`, the deferred span's text
has been overwritten but its `skip_validation` flag is still `true` — the
code never clears it, contrary to the claim. -/
theorem c6_counterexample :
    verify_textbounds [deferTb] "xyz" =
      .ok [{ id := "T9", type_ := "Y", start := 0, end_ := 2,
             text := "xy", skip_validation := true }] ∧
    ({ id := "T9", type_ := "Y", start := 0, end_ := 2,
       text := "xy", skip_validation := true } :
        Textbound).skip_validation = true := by
  refine ⟨by decide, rfl⟩

/-- C6 witness: the amended theorem at the concrete deferred span. -/
theorem c6_deferred_backfill_witness :
    verify_textbounds [deferTb] "xyz" =
      .ok [{ deferTb with text := pySlice "xyz" deferTb.start deferTb.end_ }] ∧
    ({ deferTb with text := pySlice "xyz" deferTb.start deferTb.end_ } :
        Textbound).skip_validation = true :=
  c6_deferred_backfill.1 deferTb "xyz" rfl

/-- C9: `Textbound.from_str` raises a `FormatError` carrying the raw record
whenever the record does not split into exactly three tab-delimited fields,
or the type/offset field has no space, or the offset field does not parse
as space-separated integer pairs (including any malformed pair); in
particular, parsing `T1 PersonX` (no tab) fails with a `FormatError`
referencing that raw string. -/
theorem c9_format_error :
    (∀ (s : String) (rule : Option String),
       ((splitCh '\t' s.data).length ≠ 3 ∨
        (∀ id_ ty txt, splitCh '\t' s.data = [id_, ty, txt] →
           splitOnceCh ' ' ty = none ∨
           (∀ tn o, splitOnceCh ' ' ty = some (tn, o) →
              _parse_offsets (String.mk o) = none))) →
       from_str s rule = .error ("Standoff: failed to parse " ++ s)) ∧
    from_str "T1 PersonX" none = .error "Standoff: failed to parse T1 PersonX" := by
  constructor
  · intro s rule h
    unfold from_str
    rcases hsp : splitCh '\t' s.data with _ | ⟨a, _ | ⟨b, _ | ⟨c, _ | ⟨d, r⟩⟩⟩⟩
    · rfl
    · rfl
    · rfl
    · rcases h with hlen | hdeep
      · rw [hsp] at hlen
        simp at hlen
      · rcases hdeep a b c hsp with hnone | hofs
        · simp only [hnone]
        · rcases hso : splitOnceCh ' ' b with _ | ⟨tn, o⟩
          · simp only [hso]
          · have hpo := hofs tn o hso
            simp only [hso, hpo]
    · rfl
  · decide

/-- C9 witness: the general error condition applied to a record with no tab
character at all. -/
theorem c9_format_error_witness :
    from_str "anotherBadRecord" none =
      .error ("Standoff: failed to parse " ++ "anotherBadRecord") :=
  c9_format_error.1 "anotherBadRecord" none (Or.inl (by decide))

/-- C10: parsing a record with two or more offset pairs under the
`last-span` policy, with final pair `(s, e)`, yields a span with start `s`,
end `e`, `skip_validation = false`, and text equal to the Python slice
`text[s-e:]` of the record's text field; for `0 < e-s <= len(text)` that is
the suffix of length `e-s`, and for `e = s` it is the whole text field. -/
theorem c10_last_span (s id_ ty txt tname offstr : List Char)
    (offs : List (Int × Int)) (st en : Int)
    (hsp : splitCh '\t' s = [id_, ty, txt])
    (hso : splitOnceCh ' ' ty = some (tname, offstr))
    (hpo : _parse_offsets (String.mk offstr) = some offs)
    (hlen : 2 ≤ offs.length)
    (hlast : offs.getLast? = some (st, en)) :
    ∃ ann : Textbound,
      from_str (String.mk s) (some LAST_SPAN) = .ok ann ∧
      ann.start = st ∧ ann.end_ = en ∧ ann.skip_validation = false ∧
      ann.text = pySliceFrom (String.mk txt) (st - en) ∧
      (0 < en - st → en - st ≤ (txt.length : Int) →
        ann.text.data = txt.drop (txt.length - (en - st).toNat)) ∧
      (en = st → ann.text = String.mk txt) := by
  rcases offs with _ | ⟨o1, _ | ⟨o2, rest⟩⟩
  · simp at hlen
  · simp at hlen
  · have hne1 : ((o1 :: o2 :: rest).length != 1) = true := by
      simp [List.length_cons]
    have hres : _resolve_discontinuous (o1 :: o2 :: rest) (String.mk txt)
        (some LAST_SPAN) =
        some ([(st, en)], pySliceFrom (String.mk txt) (st - en)) := by
      unfold _resolve_discontinuous
      have hLF : ¬ (LAST_SPAN = FULL_SPAN) := by decide
      simp only [Option.getD_some, hLF, if_false, if_pos rfl, hlast]
      simp
    have hcore : from_str (String.mk s) (some LAST_SPAN) =
        .ok { id := String.mk id_, type_ := String.mk tname, start := st,
              end_ := en, text := pySliceFrom (String.mk txt) (st - en),
              skip_validation := false } := by
      unfold from_str
      have hsp2 : splitCh '\t' (String.mk s).data = [id_, ty, txt] := hsp
      simp only [hsp2, hso, hpo, hne1, if_true, hres]
      simp
    refine ⟨_, hcore, rfl, rfl, rfl, rfl, ?_, ?_⟩
    · intro h1 h2
      have hneg : st - en = -(en - st) := by omega
      rw [hneg]
      exact pySliceFrom_suffix (String.mk txt) (en - st) h1 h2
    · intro h
      have hz : st - en = 0 := by omega
      rw [hz]
      rw [pySliceFrom_zero]

/-- C10 witness: the record `T1<TAB>Person 0 2;5 8<TAB>hello` under
`last-span`; the final pair is (5, 8), and `"hello"[5-8:]` is the length-3
suffix `"llo"`. -/
theorem c10_last_span_witness :
    ∃ ann : Textbound,
      from_str (String.mk "T1\tPerson 0 2;5 8\thello".data) (some LAST_SPAN) =
        .ok ann ∧
      ann.start = 5 ∧ ann.end_ = 8 ∧ ann.skip_validation = false ∧
      ann.text = pySliceFrom (String.mk "hello".data) (5 - 8) ∧
      (0 < (8 : Int) - 5 → (8 : Int) - 5 ≤ ("hello".data.length : Int) →
        ann.text.data =
          "hello".data.drop ("hello".data.length - ((8 : Int) - 5).toNat)) ∧
      ((8 : Int) = 5 → ann.text = String.mk "hello".data) :=
  c10_last_span "T1\tPerson 0 2;5 8\thello".data "T1".data
    "Person 0 2;5 8".data "hello".data "Person".data "0 2;5 8".data
    [(0, 2), (5, 8)] 5 8 (by decide) (by decide) (by decide) (by decide)
    (by decide)

theorem tokenizeCls_ne_nil (cls : Char → CharCls) :
    ∀ (c : Char) (rest : List Char), tokenizeCls cls (c :: rest) ≠ [] := by
  intro c rest
  cases rest with
  | nil => simp [tokenizeCls]
  | cons d rest2 =>
    unfold tokenizeCls
    rcases h : tokenizeCls cls (d :: rest2) with _ | ⟨t, ts⟩ <;> simp only [h]
    · simp
    · split_ifs <;> simp

theorem tokenizeCls_join (cls : Char → CharCls) :
    ∀ l : List Char, (tokenizeCls cls l).join = l := by
  intro l
  induction l with
  | nil => rfl
  | cons c rest ih =>
    cases rest with
    | nil => simp [tokenizeCls]
    | cons d rest2 =>
      rcases h : tokenizeCls cls (d :: rest2) with _ | ⟨t, ts⟩
      · exact absurd h (tokenizeCls_ne_nil cls d rest2)
      · rw [h] at ih
        unfold tokenizeCls
        simp only [h]
        split_ifs with hm
        · simp only [List.join_cons] at ih ⊢
          rw [List.cons_append, ih]
        · simp only [List.join_cons] at ih ⊢
          rw [List.singleton_append, ih]

theorem tokenizeCls_mem_ne_nil (cls : Char → CharCls) :
    ∀ (l : List Char) (t : List Char), t ∈ tokenizeCls cls l → t ≠ [] := by
  intro l
  induction l with
  | nil => intro t ht; simp [tokenizeCls] at ht
  | cons c rest ih =>
    cases rest with
    | nil =>
      intro t ht
      simp only [tokenizeCls, List.mem_singleton] at ht
      simp [ht]
    | cons d rest2 =>
      intro t ht
      rcases h : tokenizeCls cls (d :: rest2) with _ | ⟨t0, ts⟩
      · exact absurd h (tokenizeCls_ne_nil cls d rest2)
      · unfold tokenizeCls at ht
        simp only [h] at ht
        split_ifs at ht with hm
        · rcases List.mem_cons.mp ht with h1 | h1
          · subst h1; simp
          · exact ih t (by rw [h]; exact List.mem_cons_of_mem _ h1)
        · rcases List.mem_cons.mp ht with h1 | h1
          · subst h1; simp
          · exact ih t (by rw [h]; exact h1)

theorem foldl_append_mk (ls : List (List Char)) :
    ∀ a : List Char,
      List.foldl (· ++ ·) (String.mk a) (ls.map String.mk) =
        String.mk (a ++ ls.join) := by
  induction ls with
  | nil => intro a; simp
  | cons b ls ih =>
    intro a
    simp only [List.map_cons, List.foldl_cons]
    have hab : (String.mk a ++ String.mk b) = String.mk (a ++ b) := rfl
    rw [hab, ih]
    simp [List.join_cons, List.append_assoc]

theorem join_tokens (ls : List (List Char)) :
    String.join (ls.map String.mk) = String.mk ls.join := by
  unfold String.join
  have h0 : ("" : String) = String.mk [] := rfl
  rw [h0]
  have := foldl_append_mk ls []
  simpa using this

/-- C8: for every input text and each of the three selectable tokenization
patterns, `sentence_to_tokens` returns non-empty tokens whose concatenation
is exactly the input, so the defensive assertion in it never fires.  (The
proof works for any character classifier, so it covers all three regex
entries of `TOKENIZATION_REGEXS`.) -/
theorem c8_round_trip :
    ∀ (text : String) (name : String) (cls : Char → CharCls),
      (name, cls) ∈ TOKENIZATION_REGEXS →
      String.join (sentence_to_tokens text (some cls)) = text ∧
      ∀ tok ∈ sentence_to_tokens text (some cls), tok ≠ "" := by
  intro text name cls _
  constructor
  · unfold sentence_to_tokens
    simp only [Option.getD_some]
    rw [join_tokens, tokenizeCls_join]
  · intro tok htok
    unfold sentence_to_tokens at htok
    simp only [Option.getD_some, List.mem_map] at htok
    obtain ⟨t, ht, hmk⟩ := htok
    have hne := tokenizeCls_mem_ne_nil cls text.data t ht
    intro hc
    apply hne
    have : tok.data = [] := by rw [hc]
    rw [← hmk] at this
    exact this

/-- C8 witness: the `space` pattern on `"a b"`. -/
theorem c8_round_trip_witness :
    String.join (sentence_to_tokens "a b" (some spaceCls)) = "a b" ∧
    ("a" : String) ≠ "" :=
  ⟨(c8_round_trip "a b" "space" spaceCls (by simp [TOKENIZATION_REGEXS])).1,
   (c8_round_trip "a b" "space" spaceCls (by simp [TOKENIZATION_REGEXS])).2
     "a" (by decide)⟩

end S2C
